import Mathlib

/-!
Shallow embedding of the receive-side core of the RustDDS repository:
the fragment assembler (`src/dds/fragment_assembler.rs`) and the sample
cache (`src/structure/dds_cache.rs`).

Modelling conventions:
- Rust machine integers (`u16`, `u32`, `usize`, `i64`) are modelled as
  `Nat` / `Int`.  No arithmetic in the embedded code can overflow `usize`
  for wire-width inputs, except the `usize` subtraction
  `fragment_starting_num - 1`, which is modelled explicitly (see
  `AssemblyBuffer.insert_frags`).
- A Rust operation that can panic (slice indexing out of range,
  `copy_from_slice` length mismatch, `BitVec::set` out of bounds,
  division by zero, integer-overflow check, `BTreeMap::range` with
  inverted bounds on a non-empty map, an explicit `panic` call) is
  embedded as a function returning `Option`; `none` means the operation
  panics.
- `Timestamp::now()` / `std::time::Instant` are external clock reads; the
  clock value is passed in as an explicit `now` argument.  `Instant` is a
  monotonic totally ordered timestamp, modelled as `Nat`.
- `BTreeMap` is modelled as an association list kept sorted by key
  (`btInsert`, `btLookup`, `btRemove`, `btRange`); `HashMap` as an
  association list with first-match update (`hmInsert`, `hmGet`,
  `hmRemove`): only key-lookup semantics are relevant.
-/

/-- `std::time::Instant` / `Timestamp`: monotonic local timestamp, modelled as `Nat`. -/
abbrev Instant := Nat

/-- `Timestamp` from `structure::time`, modelled as `Nat` (only ordering matters). -/
abbrev Timestamp := Nat

/-- A byte; the numeric range plays no role in the claims. -/
abbrev Byte := Nat

/-! ### Ordered-map model of `BTreeMap` (sorted association list) -/

/-- `BTreeMap::insert`: returns the previous value for the key (if any) and
the updated map.  The list is kept sorted by key. -/
def btInsert {κ α : Type} [LinearOrder κ] : List (κ × α) → κ → α → Option α × List (κ × α)
  | [], k, v => (none, [(k, v)])
  | (k1, v1) :: rest, k, v =>
    if k < k1 then (none, (k, v) :: (k1, v1) :: rest)
    else if k = k1 then (some v1, (k, v) :: rest)
    else
      let r := btInsert rest k v
      (r.1, (k1, v1) :: r.2)

/-- `BTreeMap::get`: first entry with the given key. -/
def btLookup {κ α : Type} [LinearOrder κ] : List (κ × α) → κ → Option α
  | [], _ => none
  | (k1, v1) :: rest, k => if k = k1 then some v1 else btLookup rest k

/-- `BTreeMap::remove`: returns the removed value (if any) and the updated map. -/
def btRemove {κ α : Type} [LinearOrder κ] : List (κ × α) → κ → Option α × List (κ × α)
  | [], _ => (none, [])
  | (k1, v1) :: rest, k =>
    if k = k1 then (some v1, rest)
    else
      let r := btRemove rest k
      (r.1, (k1, v1) :: r.2)

/-- `BTreeMap::range((Included(start), Included(end)))` followed by collecting
into a `Vec`.  On an empty map the iterator is empty and the bounds are never
checked (the inverted-bounds panic lives inside the tree search, which is only
reached when the map has a root); on a non-empty map, `start > end` panics
(`none`); otherwise the entries with key in the closed interval are yielded in
stored (ascending) order. -/
def btRange {κ α : Type} [LinearOrder κ] (l : List (κ × α)) (s e : κ) :
    Option (List (κ × α)) :=
  if l.isEmpty then some []
  else if s > e then none
  else some (l.filter (fun p => decide (s ≤ p.1 ∧ p.1 ≤ e)))

/-! ### Unordered-map model of `HashMap` (association list) -/

/-- `HashMap::insert` (replace the entry if the key is present, else append). -/
def hmInsert {α : Type} : List (String × α) → String → α → List (String × α)
  | [], k, v => [(k, v)]
  | (k1, v1) :: rest, k, v =>
    if k1 = k then (k, v) :: rest else (k1, v1) :: hmInsert rest k v

/-- `HashMap::get`. -/
def hmGet {α : Type} : List (String × α) → String → Option α
  | [], _ => none
  | (k1, v1) :: rest, k => if k1 = k then some v1 else hmGet rest k

/-- `HashMap::remove` (drops the entry with the key, if present). -/
def hmRemove {α : Type} : List (String × α) → String → List (String × α)
  | [], _ => []
  | (k1, v1) :: rest, k => if k1 = k then rest else (k1, v1) :: hmRemove rest k

/-- `HashMap::contains_key`. -/
def hmContains {α : Type} (l : List (String × α)) (k : String) : Bool :=
  (hmGet l k).isSome

/-! ### Byte-buffer and bitmap primitives -/

/-- `buf[i..j].copy_from_slice(src)` on a byte buffer: panics (`none`) when the
slice bounds are invalid (`i > j` or `j > buf.len()`) or when the source length
differs from the slice length; otherwise replaces `buf[i..j]` by `src`. -/
def writeRange (buf : List Byte) (i j : Nat) (src : List Byte) : Option (List Byte) :=
  if i ≤ j ∧ j ≤ buf.length ∧ src.length = j - i then
    some (buf.take i ++ src ++ buf.drop j)
  else none

/-- `BitVec::set(i, true)`: panics (`none`) when `i` is out of bounds. -/
def setBit (l : List Bool) (i : Nat) : Option (List Bool) :=
  if i < l.length then some (l.set i true) else none

/-- The loop `for f in 0..n { bitmap.set(start + f, true) }`. -/
def setBitsFrom (l : List Bool) (start : Nat) : Nat → Option (List Bool)
  | 0 => some l
  | n + 1 =>
    match setBit l start with
    | none => none
    | some l2 => setBitsFrom l2 (start + 1) n

/-! ### Wire data model (types consumed by the assembler) -/

/-- Modelled from the spec: `RepresentationIdentifier` (not under `src/`) is the
2-byte tag of the payload encoding (e.g. CDR LE/BE); `from_bytes` fails on an
unrecognized tag. -/
inductive RepresentationIdentifier : Type
  | CDR_BE
  | CDR_LE
  | PL_CDR_BE
  | PL_CDR_LE
deriving DecidableEq, Repr

/-- Modelled from the spec: the 2-byte wire form of a `RepresentationIdentifier`. -/
def RepresentationIdentifier.to_bytes : RepresentationIdentifier → List Byte
  | .CDR_BE => [0, 0]
  | .CDR_LE => [0, 1]
  | .PL_CDR_BE => [0, 2]
  | .PL_CDR_LE => [0, 3]

/-- Modelled from the spec: `RepresentationIdentifier::from_bytes`; `none`
models the `Err` result ("if unrecognized, drop"). -/
def RepresentationIdentifier.from_bytes : List Byte → Option RepresentationIdentifier
  | [0, 0] => some .CDR_BE
  | [0, 1] => some .CDR_LE
  | [0, 2] => some .PL_CDR_BE
  | [0, 3] => some .PL_CDR_LE
  | _ => none

/-- Modelled from the spec: `SerializedPayload` (not under `src/`): a 2-byte
representation identifier, 2 bytes of representation options, and the
user-serialized value bytes. -/
structure SerializedPayload : Type where
  representation_identifier : RepresentationIdentifier
  representation_options : List Byte
  value : List Byte
deriving DecidableEq, Repr

/-- Modelled from the spec: `SerializedPayload::new(rep_id, value)`; the
RepresentationOptions field is reserved and zero. -/
def SerializedPayload.new (rep_id : RepresentationIdentifier) (value : List Byte) :
    SerializedPayload :=
  { representation_identifier := rep_id
    representation_options := [0, 0]
    value := value }

/-- The full wire bytes of a `SerializedPayload`: 4-byte prefix then the value. -/
def SerializedPayload.asBytes (sp : SerializedPayload) : List Byte :=
  sp.representation_identifier.to_bytes ++ sp.representation_options ++ sp.value

/-- Modelled from the spec: the `DATAFRAG_Flags` set contains at minimum `Key`. -/
inductive DATAFRAG_Flags : Type
  | Key
deriving DecidableEq, Repr

/-- Modelled from the spec: `ChangeKind` lifecycle tag of a sample. -/
inductive ChangeKind : Type
  | Alive
  | NotAliveDisposed
  | NotAliveUnregistered
deriving DecidableEq, Repr

/-- Modelled from the spec: `DDSData` (not under `src/`) bundles a serialized
payload with a change kind. -/
structure DDSData : Type where
  change_kind : ChangeKind
  serialized_payload : SerializedPayload
deriving DecidableEq, Repr

/-- Modelled from the spec: `DDSData::new` wraps a payload as a normal Alive
data sample. -/
def DDSData.new (payload : SerializedPayload) : DDSData :=
  { change_kind := ChangeKind.Alive, serialized_payload := payload }

/-- Modelled from the spec: `DDSData::new_disposed_by_key` wraps a key-only
payload with the given (disposed) change kind. -/
def DDSData.new_disposed_by_key (kind : ChangeKind) (payload : SerializedPayload) :
    DDSData :=
  { change_kind := kind, serialized_payload := payload }

/-- Modelled from the spec: the `DataFrag` submessage fields the core depends
on.  Wire widths: `writer_sn : i64`, `fragment_starting_num : u32` (1-based),
`fragments_in_submessage : u16`, `fragment_size : u16`, `data_size : u32`. -/
structure DataFrag : Type where
  writer_sn : Int
  fragment_starting_num : Nat
  fragments_in_submessage : Nat
  fragment_size : Nat
  data_size : Nat
  serialized_payload : SerializedPayload
deriving DecidableEq, Repr

/-! ### AssemblyBuffer (`src/dds/fragment_assembler.rs`) -/

/-- One in-progress reassembly: the fixed-size byte buffer, the fragment
count, and the received bitmap, plus reception timestamps. -/
structure AssemblyBuffer : Type where
  buffer_bytes : List Byte
  fragment_count : Nat
  received_bitmap : List Bool
  created_time : Timestamp
  modified_time : Timestamp
deriving DecidableEq, Repr

/-- `AssemblyBuffer::new(data_size, fragment_size)`: a `data_size`-byte zeroed
buffer and an all-false bitmap of `fragment_count = data_size / fragment_size
+ (1 if remainder else 0)` bits.  Division by a zero `fragment_size` panics
(`none`).  The clock read `Timestamp::now()` is the explicit `now` argument. -/
def AssemblyBuffer.new (data_size : Nat) (fragment_size : Nat) (now : Timestamp) :
    Option AssemblyBuffer :=
  if fragment_size = 0 then none
  else
    some
      { buffer_bytes := List.replicate data_size 0
        fragment_count :=
          data_size / fragment_size + (if data_size % fragment_size = 0 then 0 else 1)
        received_bitmap :=
          List.replicate
            (data_size / fragment_size + (if data_size % fragment_size = 0 then 0 else 1))
            false
        created_time := now
        modified_time := now }

/-- `AssemblyBuffer::insert_frags(datafrag, frag_size)`.  Mirrors the source
line by line: `start_frag_from_0 = fragment_starting_num - 1` is a `usize`
subtraction, so `fragment_starting_num = 0` panics (`none`; in release mode
the wrapped value makes the subsequent slice indexing panic instead); the
destination range is `[from_byte, to_before_byte)` where `to_before_byte` is
computed BEFORE `from_byte` is shifted by the 4-byte payload-header room; the
header bytes are copied into `[0,2)` and `[2,4)` when the first fragment is
present; the bitmap bits `start..start+n` are set.  Any out-of-range slice or
length-mismatched copy panics (`none`). -/
def AssemblyBuffer.insert_frags (ab : AssemblyBuffer) (datafrag : DataFrag)
    (frag_size : Nat) (now : Timestamp) : Option AssemblyBuffer :=
  let frags_in_subm := datafrag.fragments_in_submessage
  if datafrag.fragment_starting_num = 0 then none
  else
    let fragment_starting_num := datafrag.fragment_starting_num
    let start_frag_from_0 := fragment_starting_num - 1
    let room_for_sp_header : Nat := if start_frag_from_0 = 0 then 4 else 0
    let from_byte0 := start_frag_from_0 * frag_size
    let to_before_byte :=
      if fragment_starting_num < ab.fragment_count then
        from_byte0 + frags_in_subm * frag_size
      else
        from_byte0 + datafrag.serialized_payload.value.length
    let from_byte := from_byte0 + room_for_sp_header
    let header_written : Option (List Byte) :=
      if start_frag_from_0 = 0 then
        Option.bind
          (writeRange ab.buffer_bytes 0 2
            datafrag.serialized_payload.representation_identifier.to_bytes)
          (fun b1 => writeRange b1 2 4 datafrag.serialized_payload.representation_options)
      else some ab.buffer_bytes
    Option.bind header_written (fun b2 =>
      Option.bind (writeRange b2 from_byte to_before_byte datafrag.serialized_payload.value)
        (fun b3 =>
          Option.bind (setBitsFrom ab.received_bitmap start_frag_from_0 frags_in_subm)
            (fun bm =>
              some { ab with
                      buffer_bytes := b3
                      received_bitmap := bm
                      modified_time := now })))

/-- `AssemblyBuffer::is_complete()`: all bits of the received bitmap are set. -/
def AssemblyBuffer.is_complete (ab : AssemblyBuffer) : Bool :=
  ab.received_bitmap.all (fun b => b)

/-! ### FragmentAssembler (`src/dds/fragment_assembler.rs`) -/

/-- Assembles fragments from a single remote writer: the writer's constant
fragment size and the map from sequence number to in-progress buffer. -/
structure FragmentAssembler : Type where
  fragment_size : Nat
  assembly_buffers : List (Int × AssemblyBuffer)
deriving DecidableEq, Repr

/-- `FragmentAssembler::new(fragment_size)`. -/
def FragmentAssembler.new (fragment_size : Nat) : FragmentAssembler :=
  { fragment_size := fragment_size, assembly_buffers := [] }

/-- `FragmentAssembler::new_datafrag(datafrag, flags)`.  The outer `Option` is
the panic monad (`none` = the call panics); the inner pair is the returned
`Option<DDSData>` together with the assembler state after the call.  Mirrors
the source: look up or create the buffer keyed by `writer_sn` (`entry ...
or_insert_with`), run `insert_frags`, and on completion remove the buffer,
parse the first two bytes as a representation identifier (an unrecognized
identifier makes the call return `None` early — the buffer stays removed),
and wrap `buffer[4..]` as a data or dispose sample according to `flags`. -/
def FragmentAssembler.new_datafrag (fa : FragmentAssembler) (datafrag : DataFrag)
    (flags : List DATAFRAG_Flags) (now : Timestamp) :
    Option (Option DDSData × FragmentAssembler) :=
  let frag_size := fa.fragment_size
  let abuf0 : Option AssemblyBuffer :=
    match btLookup fa.assembly_buffers datafrag.writer_sn with
    | some b => some b
    | none => AssemblyBuffer.new datafrag.data_size frag_size now
  Option.bind abuf0 (fun b =>
    Option.bind (AssemblyBuffer.insert_frags b datafrag frag_size now) (fun abuf =>
      let bufs := (btInsert fa.assembly_buffers datafrag.writer_sn abuf).2
      if abuf.is_complete then
        match btRemove bufs datafrag.writer_sn with
        | (some done, bufs2) =>
          if 2 ≤ done.buffer_bytes.length then
            match RepresentationIdentifier.from_bytes (done.buffer_bytes.take 2) with
            | none => some (none, { fa with assembly_buffers := bufs2 })
            | some rep_id =>
              if 4 ≤ done.buffer_bytes.length then
                let ser_data_or_key :=
                  SerializedPayload.new rep_id (done.buffer_bytes.drop 4)
                let ddsdata :=
                  if DATAFRAG_Flags.Key ∈ flags then
                    DDSData.new_disposed_by_key ChangeKind.NotAliveDisposed ser_data_or_key
                  else
                    DDSData.new ser_data_or_key
                some (some ddsdata, { fa with assembly_buffers := bufs2 })
              else none
          else none
        | (none, bufs2) => some (none, { fa with assembly_buffers := bufs2 })
      else some (none, { fa with assembly_buffers := bufs })))

/-- Sequentially feed a list of DATA_FRAG submessages to the assembler,
collecting the per-submessage emissions; `none` if any call panics. -/
def feedAll (fa : FragmentAssembler) (flags : List DATAFRAG_Flags) (now : Timestamp) :
    List DataFrag → Option (List (Option DDSData) × FragmentAssembler)
  | [] => some ([], fa)
  | df :: rest =>
    match FragmentAssembler.new_datafrag fa df flags now with
    | none => none
    | some (out, fa2) =>
      match feedAll fa2 flags now rest with
      | none => none
      | some (outs, fa3) => some (out :: outs, fa3)

/-! ### Sample cache data model (`src/structure/dds_cache.rs`) -/

/-- Modelled from the spec: `QosPolicies` (not under `src/`) is opaque to the
cache; `qos_none()` is the default policy set. -/
structure QosPolicies : Type where
  policy_id : Nat
deriving DecidableEq, Repr

/-- Modelled from the spec: `QosPolicies::qos_none()`, the default QoS. -/
def QosPolicies.qos_none : QosPolicies := { policy_id := 0 }

/-- Modelled from the spec: `TopicKind` (with-key vs no-key). -/
inductive TopicKind : Type
  | WITH_KEY
  | NO_KEY
deriving DecidableEq, Repr

/-- Modelled from the spec: `CacheChange` (not under `src/`): originating
writer GUID (modelled as `Nat`), writer sequence number, optional data. -/
structure CacheChange : Type where
  writer_guid : Nat
  sequence_number : Int
  data_value : Option DDSData
deriving DecidableEq, Repr

/-- `DDSHistoryCache`: ordered map from `Instant` to `CacheChange`
(`BTreeMap`, modelled as a sorted association list). -/
structure DDSHistoryCache : Type where
  changes : List (Instant × CacheChange)
deriving DecidableEq, Repr

/-- `DDSHistoryCache::new()`. -/
def DDSHistoryCache.new : DDSHistoryCache := { changes := [] }

/-- `DDSHistoryCache::add_change(instant, change)`: `BTreeMap::insert`; when
the key was already present the source calls `panic`, modelled as `none`. -/
def DDSHistoryCache.add_change (hc : DDSHistoryCache) (instant : Instant)
    (cache_change : CacheChange) : Option DDSHistoryCache :=
  match btInsert hc.changes instant cache_change with
  | (none, l) => some { changes := l }
  | (some _, _) => none

/-- `DDSHistoryCache::get_change(instant)`: point lookup. -/
def DDSHistoryCache.get_change (hc : DDSHistoryCache) (instant : Instant) :
    Option CacheChange :=
  btLookup hc.changes instant

/-- `DDSHistoryCache::get_range_of_changes_vec(start, end)`: collects
`BTreeMap::range((Included(start), Included(end)))` into a vector; the range
call panics (`none`) when `start > end` and the map is non-empty. -/
def DDSHistoryCache.get_range_of_changes_vec (hc : DDSHistoryCache)
    (start_instant end_instant : Instant) : Option (List (Instant × CacheChange)) :=
  btRange hc.changes start_instant end_instant

/-- `DDSHistoryCache::remove_change(instant)`: removes and returns the value. -/
def DDSHistoryCache.remove_change (hc : DDSHistoryCache) (instant : Instant) :
    Option CacheChange × DDSHistoryCache :=
  let r := btRemove hc.changes instant
  (r.1, { changes := r.2 })

/-- `TopicCache`: one history cache plus the topic's type name, kind and QoS. -/
structure TopicCache : Type where
  topic_data_type_name : String
  topic_kind : TopicKind
  topic_qos : QosPolicies
  history_cache : DDSHistoryCache
deriving DecidableEq, Repr

/-- `TopicCache::new(topic_kind, topic_data_type_name)`: fresh cache with the
default (`qos_none`) QoS and an empty history. -/
def TopicCache.new (topic_kind : TopicKind) (topic_data_type_name : String) : TopicCache :=
  { topic_data_type_name := topic_data_type_name
    topic_kind := topic_kind
    topic_qos := QosPolicies.qos_none
    history_cache := DDSHistoryCache.new }

/-- `TopicCache::get_change`. -/
def TopicCache.get_change (tc : TopicCache) (instant : Instant) : Option CacheChange :=
  tc.history_cache.get_change instant

/-- `TopicCache::add_change` (propagates the duplicate-instant panic). -/
def TopicCache.add_change (tc : TopicCache) (instant : Instant)
    (cache_change : CacheChange) : Option TopicCache :=
  (tc.history_cache.add_change instant cache_change).map
    (fun hc => { tc with history_cache := hc })

/-- `TopicCache::get_changes_in_range` (propagates the inverted-bounds panic). -/
def TopicCache.get_changes_in_range (tc : TopicCache)
    (start_instant end_instant : Instant) : Option (List (Instant × CacheChange)) :=
  tc.history_cache.get_range_of_changes_vec start_instant end_instant

/-- `DDSCache`: registry of `TopicCache`s keyed by topic name (`HashMap`). -/
structure DDSCache : Type where
  topic_caches : List (String × TopicCache)
deriving DecidableEq, Repr

/-- `DDSCache::new()`. -/
def DDSCache.new : DDSCache := { topic_caches := [] }

/-- `DDSCache::add_new_topic(name, kind, type_name)`: returns `false` and
leaves the registry unchanged when the name is present, otherwise inserts a
fresh `TopicCache` and returns `true`. -/
def DDSCache.add_new_topic (c : DDSCache) (topic_name : String) (topic_kind : TopicKind)
    (topic_data_type_name : String) : Bool × DDSCache :=
  if hmContains c.topic_caches topic_name then (false, c)
  else
    (true,
      { topic_caches :=
          hmInsert c.topic_caches topic_name (TopicCache.new topic_kind topic_data_type_name) })

/-- `DDSCache::remove_topic(name)`: removes the topic if present. -/
def DDSCache.remove_topic (c : DDSCache) (topic_name : String) : DDSCache :=
  if hmContains c.topic_caches topic_name then
    { topic_caches := hmRemove c.topic_caches topic_name }
  else c

/-- `DDSCache::get_topic_qos(name)`: the topic's QoS, or `none` if unknown. -/
def DDSCache.get_topic_qos (c : DDSCache) (topic_name : String) : Option QosPolicies :=
  match hmGet c.topic_caches topic_name with
  | some tc => some tc.topic_qos
  | none => none

/-- `DDSCache::from_topic_get_change(name, instant)`: delegated point lookup;
`none` when the topic is unknown. -/
def DDSCache.from_topic_get_change (c : DDSCache) (topic_name : String)
    (instant : Instant) : Option CacheChange :=
  match hmGet c.topic_caches topic_name with
  | some tc => tc.get_change instant
  | none => none

/-- `DDSCache::from_topic_get_changes_in_range(name, start, end)`: delegated
range query returning an empty vector when the topic is unknown; the outer
`Option` is the panic monad for the delegated `BTreeMap::range` call. -/
def DDSCache.from_topic_get_changes_in_range (c : DDSCache) (topic_name : String)
    (start_instant end_instant : Instant) : Option (List (Instant × CacheChange)) :=
  match hmGet c.topic_caches topic_name with
  | some tc => tc.get_changes_in_range start_instant end_instant
  | none => some []

/-- `DDSCache::to_topic_add_change(name, instant, change)`: delegated insert,
a silent no-op when the topic is unknown; the delegated insert's
duplicate-instant panic propagates (`none`). -/
def DDSCache.to_topic_add_change (c : DDSCache) (topic_name : String)
    (instant : Instant) (cache_change : CacheChange) : Option DDSCache :=
  match hmGet c.topic_caches topic_name with
  | some tc =>
    (tc.add_change instant cache_change).map
      (fun tc2 => { topic_caches := hmInsert c.topic_caches topic_name tc2 })
  | none => some c

/-! ### Reachability and auxiliary definitions used by the statements -/

/-- An `AssemblyBuffer` reachable by a sequence of `new` / `insert_frags`
operations that did not panic. -/
inductive ReachableAB : AssemblyBuffer → Prop
  | base (data_size fragment_size : Nat) (now : Timestamp) (b : AssemblyBuffer) :
      AssemblyBuffer.new data_size fragment_size now = some b → ReachableAB b
  | step (b : AssemblyBuffer) (df : DataFrag) (fs : Nat) (now : Timestamp)
      (b2 : AssemblyBuffer) :
      ReachableAB b → AssemblyBuffer.insert_frags b df fs now = some b2 → ReachableAB b2

/-- The stored history entries of a topic (empty when the topic is unknown). -/
def DDSCache.topicChanges (c : DDSCache) (topic_name : String) :
    List (Instant × CacheChange) :=
  match hmGet c.topic_caches topic_name with
  | some tc => tc.history_cache.changes
  | none => []

/-! ### Concrete inputs for the end-to-end scenario theorems and witnesses -/

/-- Spec scenario 1 DATA_FRAG (`data_size = 100`, `fragment_size = 128`,
`fragment_starting_num = 1`, `fragments_in_submessage = 1`), with the parsed
payload value carrying the 96 user bytes after the 4-byte prefix. -/
def c1df96 : DataFrag where
  writer_sn := 1
  fragment_starting_num := 1
  fragments_in_submessage := 1
  fragment_size := 128
  data_size := 100
  serialized_payload :=
    { representation_identifier := .CDR_LE
      representation_options := [0, 0]
      value := List.replicate 96 7 }

/-- Spec scenario 1 DATA_FRAG under the alternative reading in which
`serialized_payload.value` is all 100 bytes including the prefix. -/
def c1df100 : DataFrag where
  writer_sn := 1
  fragment_starting_num := 1
  fragments_in_submessage := 1
  fragment_size := 128
  data_size := 100
  serialized_payload :=
    { representation_identifier := .CDR_LE
      representation_options := [0, 0]
      value := List.replicate 100 7 }

/-- A malformed DATA_FRAG for a `data_size = 10`, `fragment_size = 4` buffer:
`fragment_starting_num = 0`. -/
def c2dfStartZero : DataFrag where
  writer_sn := 1
  fragment_starting_num := 0
  fragments_in_submessage := 1
  fragment_size := 4
  data_size := 10
  serialized_payload :=
    { representation_identifier := .CDR_LE
      representation_options := [0, 0]
      value := [1, 2, 3, 4] }

/-- A malformed DATA_FRAG: `fragment_starting_num = 5` exceeds the fragment
count 3 of a `data_size = 10`, `fragment_size = 4` buffer. -/
def c2dfStartPastEnd : DataFrag where
  writer_sn := 1
  fragment_starting_num := 5
  fragments_in_submessage := 1
  fragment_size := 4
  data_size := 10
  serialized_payload :=
    { representation_identifier := .CDR_LE
      representation_options := [0, 0]
      value := [9, 9] }

/-- A malformed DATA_FRAG: `fragments_in_submessage = 3` starting at fragment
2 would write bytes `[4, 16)` past `data_size = 10`. -/
def c2dfOverrun : DataFrag where
  writer_sn := 1
  fragment_starting_num := 2
  fragments_in_submessage := 3
  fragment_size := 4
  data_size := 10
  serialized_payload :=
    { representation_identifier := .CDR_LE
      representation_options := [0, 0]
      value := List.replicate 12 1 }

/-- A 6-byte sender payload (prefix `[0, 1, 0, 0]` = CDR_LE plus two user
bytes); with `fragment_size = 8` the sender's split is a single DATA_FRAG. -/
def c3SinglePayload : List Byte := [0, 1, 0, 0, 50, 51]

/-- The single DATA_FRAG of the `c3SinglePayload` split. -/
def c3SingleFrag : DataFrag where
  writer_sn := 2
  fragment_starting_num := 1
  fragments_in_submessage := 1
  fragment_size := 8
  data_size := 6
  serialized_payload :=
    { representation_identifier := .CDR_LE
      representation_options := [0, 0]
      value := c3SinglePayload.drop 4 }

/-- A 28-byte sender payload (prefix `[0, 1, 0, 0]` = CDR_LE followed by 24
user bytes); with `fragment_size = 8` it splits into 4 fragments. -/
def c3payload : List Byte := [0, 1, 0, 0] ++ (List.range 24).map (fun i => i + 10)

/-- Fragment `i` (1-based) of the sender's split of `c3payload` with
`fragment_size = 8`: fragment 1 carries the user bytes after the prefix,
later fragments carry the raw slice `[(i-1)*8, min (i*8) 28)`. -/
def c3frag (i : Nat) : DataFrag where
  writer_sn := 7
  fragment_starting_num := i
  fragments_in_submessage := 1
  fragment_size := 8
  data_size := 28
  serialized_payload :=
    { representation_identifier := .CDR_LE
      representation_options := [0, 0]
      value :=
        if i = 1 then (c3payload.take 8).drop 4
        else (c3payload.take (min (i * 8) 28)).drop ((i - 1) * 8) }

/-- The buffer produced by `AssemblyBuffer.new 100 128 0`
(`fragment_count = 1`). -/
def c4buf : AssemblyBuffer where
  buffer_bytes := List.replicate 100 0
  fragment_count := 1
  received_bitmap := [false]
  created_time := 0
  modified_time := 0

/-- A concrete cache change used by the cache witnesses. -/
def c5change (n : Nat) : CacheChange where
  writer_guid := n
  sequence_number := 1
  data_value := none

/-- A topic cache with history entries at instants 1 and 2. -/
def c5topic : TopicCache where
  topic_data_type_name := "T"
  topic_kind := .WITH_KEY
  topic_qos := QosPolicies.qos_none
  history_cache := { changes := [(1, c5change 1), (2, c5change 2)] }

/-- A one-topic cache holding `c5topic` under name "t". -/
def c5cache : DDSCache where
  topic_caches := [("t", c5topic)]

/-- An empty history cache. -/
def c6hcEmpty : DDSHistoryCache := DDSHistoryCache.new

/-- A history cache already holding an entry at instant 3. -/
def c6hcDup : DDSHistoryCache where
  changes := [(3, c5change 3)]

/-- A one-topic cache whose topic "t9" has an EMPTY history (fresh
`TopicCache`): the range query on it never reaches the bounds check. -/
def c9cache : DDSCache where
  topic_caches := [("t9", TopicCache.new TopicKind.WITH_KEY "T9")]

/-- A topic cache with a single history entry at instant 1. -/
def c9topicNE : TopicCache where
  topic_data_type_name := "T9"
  topic_kind := .WITH_KEY
  topic_qos := QosPolicies.qos_none
  history_cache := { changes := [(1, c5change 4)] }

/-- A one-topic cache whose topic "t9n" has the non-empty history
`c9topicNE`. -/
def c9cacheNE : DDSCache where
  topic_caches := [("t9n", c9topicNE)]

/-- The buffer produced by `AssemblyBuffer.new 10 4 0` (`fragment_count = 3`). -/
def c10buf : AssemblyBuffer where
  buffer_bytes := List.replicate 10 0
  fragment_count := 3
  received_bitmap := [false, false, false]
  created_time := 0
  modified_time := 0

/-- A well-formed DATA_FRAG carrying fragment 2 for the `c10buf` buffer. -/
def c10df : DataFrag where
  writer_sn := 1
  fragment_starting_num := 2
  fragments_in_submessage := 1
  fragment_size := 4
  data_size := 10
  serialized_payload :=
    { representation_identifier := .CDR_LE
      representation_options := [0, 0]
      value := [1, 2, 3, 4] }

/-- `c10buf` after inserting `c10df` (bytes `[4, 8)` written, bit 1 set). -/
def c10buf2 : AssemblyBuffer where
  buffer_bytes := [0, 0, 0, 0, 1, 2, 3, 4, 0, 0]
  fragment_count := 3
  received_bitmap := [false, true, false]
  created_time := 0
  modified_time := 0

/-- An assembler that already holds `c10buf` for sequence number 1. -/
def c10fa : FragmentAssembler where
  fragment_size := 4
  assembly_buffers := [(1, c10buf)]

/-! ### Helper lemmas -/

/-- A successful range copy preserves the buffer length. -/
theorem writeRange_length {buf : List Byte} {i j : Nat} {src out : List Byte}
    (h : writeRange buf i j src = some out) : out.length = buf.length := by
  unfold writeRange at h
  split at h
  · rename_i hc
    obtain ⟨hij, hj, hsrc⟩ := hc
    cases h
    simp [List.length_take, List.length_drop, hsrc]
    omega
  · exact absurd h (by simp)

/-- Setting one bit preserves the bitmap length. -/
theorem setBit_length {l : List Bool} {i : Nat} {out : List Bool}
    (h : setBit l i = some out) : out.length = l.length := by
  unfold setBit at h
  split at h
  · cases h
    exact List.length_set l i true
  · exact absurd h (by simp)

/-- The bit-setting loop preserves the bitmap length. -/
theorem setBitsFrom_length {l : List Bool} {start n : Nat} {out : List Bool}
    (h : setBitsFrom l start n = some out) : out.length = l.length := by
  induction n generalizing l start with
  | zero =>
    unfold setBitsFrom at h
    cases h
    rfl
  | succ m ih =>
    unfold setBitsFrom at h
    cases hb : setBit l start with
    | none => rw [hb] at h; exact absurd h (by simp)
    | some l2 =>
      rw [hb] at h
      exact (ih h).trans (setBit_length hb)

/-- A successful `insert_frags` preserves the buffer length, the fragment
count, and the bitmap length. -/
theorem insert_frags_preserves {ab : AssemblyBuffer} {df : DataFrag} {fs : Nat}
    {now : Timestamp} {ab2 : AssemblyBuffer}
    (h : AssemblyBuffer.insert_frags ab df fs now = some ab2) :
    ab2.buffer_bytes.length = ab.buffer_bytes.length ∧
      ab2.fragment_count = ab.fragment_count ∧
      ab2.received_bitmap.length = ab.received_bitmap.length := by
  unfold AssemblyBuffer.insert_frags at h
  split at h
  · exact absurd h (by simp)
  · simp only [Option.bind_eq_some] at h
    obtain ⟨b2, hb2, b3, hb3, bm, hbm, hfin⟩ := h
    have hb2len : b2.length = ab.buffer_bytes.length := by
      split at hb2
      · simp only [Option.bind_eq_some] at hb2
        obtain ⟨b1, hb1, hb1'⟩ := hb2
        exact (writeRange_length hb1').trans (writeRange_length hb1)
      · cases hb2
        rfl
    cases hfin
    exact ⟨(writeRange_length hb3).trans hb2len, rfl, setBitsFrom_length hbm⟩

/-- Characterization of a successful `AssemblyBuffer.new`. -/
theorem assembly_buffer_new_spec {d f : Nat} {now : Timestamp} {b : AssemblyBuffer}
    (h : AssemblyBuffer.new d f now = some b) :
    b.buffer_bytes.length = d ∧
      b.fragment_count = d / f + (if d % f = 0 then 0 else 1) ∧
      b.received_bitmap.length = b.fragment_count := by
  unfold AssemblyBuffer.new at h
  split at h
  · exact absurd h (by simp)
  · cases h
    refine ⟨List.length_replicate d 0, rfl, ?_⟩
    exact List.length_replicate _ false

/-- Every reachable buffer has a bitmap of exactly `fragment_count` bits. -/
theorem reachable_bitmap_length {b : AssemblyBuffer} (h : ReachableAB b) :
    b.received_bitmap.length = b.fragment_count := by
  induction h with
  | base d f now b hb =>
    exact (assembly_buffer_new_spec hb).2.2
  | step b df fs now b2 hr hins ih =>
    obtain ⟨_, hc, hl⟩ := insert_frags_preserves hins
    rw [hl, hc, ih]

/-- A boolean list is all-true exactly when its `true`-count is its length. -/
theorem all_id_iff_count_eq_length (l : List Bool) :
    (l.all (fun b => b) = true) ↔ l.count true = l.length := by
  rw [List.all_eq_true, List.count_eq_length]
  constructor
  · intro h b hb
    exact (h b hb).symm
  · intro h b hb
    exact (h b hb).symm

/-- Looking up a key absent from every entry yields `none`. -/
theorem btLookup_eq_none_of_forall {κ α : Type} [LinearOrder κ]
    {l : List (κ × α)} {k : κ} (h : ∀ p ∈ l, p.1 ≠ k) : btLookup l k = none := by
  induction l with
  | nil => rfl
  | cons hd tl ih =>
    obtain ⟨k1, v1⟩ := hd
    unfold btLookup
    rw [if_neg (fun he => (h (k1, v1) (List.mem_cons_self _ _)) he.symm)]
    exact ih (fun p hp => h p (List.mem_cons_of_mem _ hp))

/-- On a key-sorted list, `btInsert` reports a previous value exactly as
`btLookup` finds one. -/
theorem btInsert_fst_eq_btLookup {κ α : Type} [LinearOrder κ]
    {l : List (κ × α)} (k : κ) (v : α)
    (hs : l.Pairwise (fun a b => a.1 < b.1)) : (btInsert l k v).1 = btLookup l k := by
  induction l with
  | nil => rfl
  | cons hd tl ih =>
    obtain ⟨k1, v1⟩ := hd
    rw [List.pairwise_cons] at hs
    obtain ⟨hrel, htl⟩ := hs
    unfold btInsert btLookup
    rcases lt_trichotomy k k1 with hlt | heq | hgt
    · rw [if_pos hlt, if_neg (ne_of_lt hlt)]
      have : btLookup tl k = none := by
        refine btLookup_eq_none_of_forall (fun p hp => ?_)
        exact fun he => absurd (he ▸ hrel p hp) (fun hk => absurd (hlt.trans hk) (lt_irrefl k))
      rw [this]
    · rw [if_neg (by simp [heq]), if_pos heq, if_pos heq]
    · rw [if_neg (by exact fun hc => absurd (hc.trans hgt) (lt_irrefl k)),
        if_neg (ne_of_gt hgt), if_neg (ne_of_gt hgt)]
      exact ih htl

/-- After `btInsert`, looking up the inserted key yields the new value. -/
theorem btLookup_btInsert_self {κ α : Type} [LinearOrder κ]
    (l : List (κ × α)) (k : κ) (v : α) : btLookup (btInsert l k v).2 k = some v := by
  induction l with
  | nil => simp [btInsert, btLookup]
  | cons hd tl ih =>
    obtain ⟨k1, v1⟩ := hd
    unfold btInsert
    rcases lt_trichotomy k k1 with hlt | heq | hgt
    · rw [if_pos hlt]
      simp [btLookup]
    · rw [if_neg (by simp [heq]), if_pos heq]
      simp [btLookup]
    · rw [if_neg (by exact fun hc => absurd (hc.trans hgt) (lt_irrefl k)),
        if_neg (ne_of_gt hgt)]
      unfold btLookup
      rw [if_neg (ne_of_gt hgt)]
      exact ih

/-- Unfolding equation: insertion in front of a greater key. -/
theorem btInsert_cons_lt {κ α : Type} [LinearOrder κ]
    {k k1 : κ} (v v1 : α) (tl : List (κ × α)) (h : k < k1) :
    btInsert ((k1, v1) :: tl) k v = (none, (k, v) :: (k1, v1) :: tl) := by
  unfold btInsert
  rw [if_pos h]

/-- Unfolding equation: replacement of an equal key. -/
theorem btInsert_cons_eq {κ α : Type} [LinearOrder κ]
    {k k1 : κ} (v v1 : α) (tl : List (κ × α)) (h : k = k1) :
    btInsert ((k1, v1) :: tl) k v = (some v1, (k, v) :: tl) := by
  unfold btInsert
  rw [if_neg (by simp [h]), if_pos h]

/-- Unfolding equation: recursion past a smaller key. -/
theorem btInsert_cons_gt {κ α : Type} [LinearOrder κ]
    {k k1 : κ} (v v1 : α) (tl : List (κ × α)) (h : k1 < k) :
    btInsert ((k1, v1) :: tl) k v =
      ((btInsert tl k v).1, (k1, v1) :: (btInsert tl k v).2) := by
  simp only [btInsert]
  rw [if_neg (by exact fun hc => absurd (hc.trans h) (lt_irrefl k)),
    if_neg (ne_of_gt h)]

/-- Every entry of `(btInsert l k v).2` is an entry of `l` or the new pair. -/
theorem btInsert_mem {κ α : Type} [LinearOrder κ]
    {l : List (κ × α)} {k : κ} {v : α} {p : κ × α}
    (h : p ∈ (btInsert l k v).2) : p ∈ l ∨ p = (k, v) := by
  induction l with
  | nil =>
    simp [btInsert] at h
    exact Or.inr h
  | cons hd tl ih =>
    obtain ⟨k1, v1⟩ := hd
    rcases lt_trichotomy k k1 with h1 | h1 | h1
    · rw [btInsert_cons_lt v v1 tl h1] at h
      simp only [List.mem_cons] at h ⊢
      tauto
    · rw [btInsert_cons_eq v v1 tl h1] at h
      simp only [List.mem_cons] at h ⊢
      tauto
    · rw [btInsert_cons_gt v v1 tl h1] at h
      simp only [List.mem_cons] at h ⊢
      rcases h with h | h
      · tauto
      · rcases ih h with h2 | h2
        · tauto
        · tauto

/-- `btInsert` preserves key-sortedness (the `BTreeMap` representation
invariant). -/
theorem btInsert_pairwise {κ α : Type} [LinearOrder κ]
    {l : List (κ × α)} (k : κ) (v : α)
    (hs : l.Pairwise (fun a b => a.1 < b.1)) :
    (btInsert l k v).2.Pairwise (fun a b => a.1 < b.1) := by
  induction l with
  | nil => simp [btInsert]
  | cons hd tl ih =>
    obtain ⟨k1, v1⟩ := hd
    rw [List.pairwise_cons] at hs
    obtain ⟨hrel, htl⟩ := hs
    rcases lt_trichotomy k k1 with hlt | heq | hgt
    · rw [btInsert_cons_lt v v1 tl hlt]
      refine List.Pairwise.cons (fun p hp => ?_) (List.Pairwise.cons hrel htl)
      rw [List.mem_cons] at hp
      rcases hp with h | h
      · rw [h]
        exact hlt
      · exact hlt.trans (hrel p h)
    · rw [btInsert_cons_eq v v1 tl heq]
      exact List.Pairwise.cons (fun p hp => heq ▸ hrel p hp) htl
    · rw [btInsert_cons_gt v v1 tl hgt]
      refine List.Pairwise.cons (fun p hp => ?_) (ih htl)
      rcases btInsert_mem hp with h | h
      · exact hrel p h
      · rw [h]
        exact hgt

/-- A successful `hmGet` exhibits a stored entry. -/
theorem hmGet_mem {α : Type} {l : List (String × α)} {k : String} {v : α}
    (h : hmGet l k = some v) : (k, v) ∈ l := by
  induction l with
  | nil => exact absurd h (by simp [hmGet])
  | cons hd tl ih =>
    obtain ⟨k1, v1⟩ := hd
    unfold hmGet at h
    split at h
    · rename_i he
      cases h
      rw [he]
      exact List.mem_cons_self _ _
    · exact List.mem_cons_of_mem _ (ih h)

/-- After `hmInsert`, looking up the inserted key yields the new value. -/
theorem hmGet_hmInsert_self {α : Type} (l : List (String × α)) (k : String) (v : α) :
    hmGet (hmInsert l k v) k = some v := by
  induction l with
  | nil => simp [hmInsert, hmGet]
  | cons hd tl ih =>
    obtain ⟨k1, v1⟩ := hd
    unfold hmInsert
    split
    · simp [hmGet]
    · rename_i hne
      unfold hmGet
      rw [if_neg hne]
      exact ih

/-! ### Claim theorems -/

/-- C1: the single-fragment scenario (`data_size = 100`, `fragment_size = 128`,
one DATA_FRAG with `fragment_starting_num = 1` and
`fragments_in_submessage = 1`) does NOT complete: `new_datafrag` panics
(returns `none` in the panic monad), because `to_before_byte` is computed
before `from_byte` is shifted by the 4-byte payload-header room, leaving the
destination slice 4 bytes shorter than the copied value.  This holds whether
the parsed `serialized_payload.value` carries the 96 user bytes or all 100
bytes including the prefix. -/
theorem c1_single_fragment_completion_panics :
    FragmentAssembler.new_datafrag (FragmentAssembler.new 128) c1df96 [] 0 = none ∧
      FragmentAssembler.new_datafrag (FragmentAssembler.new 128) c1df100 [] 0 = none := by
  decide

/-- C2: `insert_frags` does not treat malformed DATA_FRAGs as droppable
errors; on a buffer with `data_size = 10`, `fragment_size = 4`
(`fragment_count = 3`) it panics (`none`) for `fragment_starting_num = 0`
(usize underflow), for `fragment_starting_num = 5 > fragment_count`
(out-of-range slice), and for a `fragments_in_submessage` that would write
past `data_size` (slice past the buffer end) — instead of leaving the bytes
and the bitmap unchanged. -/
theorem c2_insert_frags_malformed_input_panics :
    ((AssemblyBuffer.new 10 4 0).bind
        (fun b => b.insert_frags c2dfStartZero 4 0) = none) ∧
      ((AssemblyBuffer.new 10 4 0).bind
        (fun b => b.insert_frags c2dfStartPastEnd 4 0) = none) ∧
      ((AssemblyBuffer.new 10 4 0).bind
        (fun b => b.insert_frags c2dfOverrun 4 0) = none) := by
  decide

/-- C3: split-then-reassemble is NOT the identity for every consistent split:
the single-submessage split of the 6-byte payload `c3SinglePayload`
(`fragment_count = 1`) makes `new_datafrag` panic instead of returning the
payload.  For the 4-fragment split of `c3payload` delivered one fragment per
submessage in arrival order `[3, 1, 4, 2]`, reassembly does complete exactly
on the last missing fragment, and the completed sample's serialized bytes
equal the original payload. -/
theorem c3_split_reassemble_roundtrip :
    (FragmentAssembler.new_datafrag (FragmentAssembler.new 8) c3SingleFrag [] 0 = none) ∧
      (feedAll (FragmentAssembler.new 8) [] 0 [c3frag 3, c3frag 1, c3frag 4, c3frag 2] =
        some ([none, none, none,
          some (DDSData.new (SerializedPayload.new .CDR_LE (c3payload.drop 4)))],
          FragmentAssembler.new 8)) ∧
      (SerializedPayload.new RepresentationIdentifier.CDR_LE (c3payload.drop 4)).asBytes
        = c3payload := by
  decide

/-- C4: every `AssemblyBuffer` reachable by `new` / `insert_frags` has at most
`fragment_count` set bits in its received bitmap, and `is_complete` holds
exactly when the number of set bits equals `fragment_count`. -/
theorem c4_received_bitmap_invariant (b : AssemblyBuffer) (h : ReachableAB b) :
    b.received_bitmap.count true ≤ b.fragment_count ∧
      (b.is_complete = true ↔ b.received_bitmap.count true = b.fragment_count) := by
  have hlen := reachable_bitmap_length h
  constructor
  · rw [← hlen]
    exact List.count_le_length true b.received_bitmap
  · rw [AssemblyBuffer.is_complete, all_id_iff_count_eq_length, hlen]

/-- Witness for C4 at the buffer created by `AssemblyBuffer.new 100 128 0`. -/
theorem c4_received_bitmap_invariant_witness :
    (AssemblyBuffer.new 100 128 0 = some c4buf) ∧
      (c4buf.received_bitmap.count true ≤ c4buf.fragment_count ∧
        (c4buf.is_complete = true ↔
          c4buf.received_bitmap.count true = c4buf.fragment_count)) :=
  ⟨by decide,
    c4_received_bitmap_invariant c4buf (ReachableAB.base 100 128 0 c4buf (by decide))⟩

/-- With `start ≤ end` the range is the in-interval filter, on empty and
non-empty maps alike (on the empty map both sides are the empty list). -/
theorem btRange_of_le {κ α : Type} [LinearOrder κ] {l : List (κ × α)} {s e : κ}
    (hle : s ≤ e) :
    btRange l s e = some (l.filter (fun p => decide (s ≤ p.1 ∧ p.1 ≤ e))) := by
  cases l with
  | nil => rfl
  | cons hd tl =>
    unfold btRange
    rw [if_neg (by simp), if_neg (not_lt.mpr hle)]

/-- In a list whose keys are strictly ascending, an entry with a smaller key
occurs at a strictly earlier index. -/
theorem pairwise_fst_lt_indices {β : Type} {r : List (Nat × β)}
    (hp : r.Pairwise (fun a b => a.1 < b.1)) {t1 t2 : Nat} {ch1 ch2 : β}
    (h1 : (t1, ch1) ∈ r) (h2 : (t2, ch2) ∈ r) (hlt : t1 < t2) :
    ∃ i j : Fin r.length, r.get i = (t1, ch1) ∧ r.get j = (t2, ch2) ∧ (i : Nat) < j := by
  obtain ⟨i, hi⟩ := List.mem_iff_get.mp h1
  obtain ⟨j, hj⟩ := List.mem_iff_get.mp h2
  refine ⟨i, j, hi, hj, ?_⟩
  have hpg := List.pairwise_iff_get.mp hp
  rcases lt_trichotomy (i : Nat) (j : Nat) with h | h | h
  · exact h
  · exfalso
    have hij : i = j := Fin.ext h
    rw [hij, hj] at hi
    have : t2 = t1 := congrArg Prod.fst hi
    omega
  · exfalso
    have hlt2 := hpg j i h
    rw [hi, hj] at hlt2
    exact absurd hlt (by omega)

/-- C5: on a cache whose per-topic histories satisfy the `BTreeMap` key-order
invariant, the range query with `start ≤ end` succeeds and returns exactly the
stored entries whose instant lies in the closed interval `[start, end]`, in
strictly ascending instant order; in particular two entries at `t1 < t2` that
both lie in the interval are returned with the `t1` entry first. -/
theorem c5_range_query_inclusive_ordered (c : DDSCache) (name : String) (s e : Instant)
    (hs : ∀ p ∈ c.topic_caches,
      p.2.history_cache.changes.Pairwise (fun a b => a.1 < b.1))
    (hle : s ≤ e) :
    ∃ r, c.from_topic_get_changes_in_range name s e = some r ∧
      (∀ p : Instant × CacheChange,
        p ∈ r ↔ p ∈ c.topicChanges name ∧ s ≤ p.1 ∧ p.1 ≤ e) ∧
      r.Pairwise (fun a b => a.1 < b.1) ∧
      (∀ t1 ch1 t2 ch2, (t1, ch1) ∈ r → (t2, ch2) ∈ r → t1 < t2 →
        ∃ i j : Fin r.length,
          r.get i = (t1, ch1) ∧ r.get j = (t2, ch2) ∧ (i : Nat) < j) := by
  cases hv : hmGet c.topic_caches name with
  | none =>
    refine ⟨[], ?_, ?_, List.Pairwise.nil, ?_⟩
    · simp [DDSCache.from_topic_get_changes_in_range, hv]
    · simp [DDSCache.topicChanges, hv]
    · intro t1 ch1 t2 ch2 hmem
      exact absurd hmem (by simp)
  | some tc =>
    have hp : tc.history_cache.changes.Pairwise (fun a b => a.1 < b.1) :=
      hs (name, tc) (hmGet_mem hv)
    have hfp : (tc.history_cache.changes.filter
        (fun p => decide (s ≤ p.1 ∧ p.1 ≤ e))).Pairwise (fun a b => a.1 < b.1) :=
      hp.filter _
    refine ⟨tc.history_cache.changes.filter (fun p => decide (s ≤ p.1 ∧ p.1 ≤ e)),
      ?_, ?_, hfp, ?_⟩
    · simp only [DDSCache.from_topic_get_changes_in_range, hv,
        TopicCache.get_changes_in_range, DDSHistoryCache.get_range_of_changes_vec]
      exact btRange_of_le hle
    · intro p
      simp [List.mem_filter, DDSCache.topicChanges, hv]
    · intro t1 ch1 t2 ch2 hm1 hm2 hlt
      exact pairwise_fst_lt_indices hfp hm1 hm2 hlt

/-- Witness for C5 on `c5cache` (entries at instants 1 and 2, query `[1, 2]`). -/
theorem c5_range_query_inclusive_ordered_witness :
    (∀ p ∈ c5cache.topic_caches,
      p.2.history_cache.changes.Pairwise (fun a b => a.1 < b.1)) ∧
      (1 : Instant) ≤ 2 ∧
      (∃ r, c5cache.from_topic_get_changes_in_range "t" 1 2 = some r ∧
        (∀ p : Instant × CacheChange,
          p ∈ r ↔ p ∈ c5cache.topicChanges "t" ∧ 1 ≤ p.1 ∧ p.1 ≤ 2) ∧
        r.Pairwise (fun a b => a.1 < b.1) ∧
        (∀ t1 ch1 t2 ch2, (t1, ch1) ∈ r → (t2, ch2) ∈ r → t1 < t2 →
          ∃ i j : Fin r.length,
            r.get i = (t1, ch1) ∧ r.get j = (t2, ch2) ∧ (i : Nat) < j)) :=
  ⟨by decide, by decide,
    c5_range_query_inclusive_ordered c5cache "t" 1 2 (by decide) (by decide)⟩

/-- C6: on a key-sorted history cache, `add_change` at a fresh instant inserts
(the instant then maps to the new change), and `add_change` at an instant that
is already a key panics (`none` in the panic monad), never returning a
recoverable error. -/
theorem c6_add_change_insert_or_panic
    (hc1 : DDSHistoryCache) (t1 : Instant) (ch1 : CacheChange)
    (hc2 : DDSHistoryCache) (t2 : Instant) (ch2 : CacheChange) (x : CacheChange)
    (hs1 : hc1.changes.Pairwise (fun a b => a.1 < b.1))
    (h1 : hc1.get_change t1 = none)
    (hs2 : hc2.changes.Pairwise (fun a b => a.1 < b.1))
    (h2 : hc2.get_change t2 = some x) :
    (∃ hc', hc1.add_change t1 ch1 = some hc' ∧ hc'.get_change t1 = some ch1) ∧
      hc2.add_change t2 ch2 = none := by
  constructor
  · cases hbt : btInsert hc1.changes t1 ch1 with
    | mk old l =>
      have hold : old = none := by
        have h' := btInsert_fst_eq_btLookup t1 ch1 hs1
        rw [hbt] at h'
        simp only [Prod.fst] at h'
        rw [h']
        exact h1
      subst hold
      refine ⟨{ changes := l }, ?_, ?_⟩
      · unfold DDSHistoryCache.add_change
        rw [hbt]
      · have hl : l = (btInsert hc1.changes t1 ch1).2 := by rw [hbt]
        unfold DDSHistoryCache.get_change
        rw [hl]
        exact btLookup_btInsert_self hc1.changes t1 ch1
  · cases hbt : btInsert hc2.changes t2 ch2 with
    | mk old l =>
      have hold : old = some x := by
        have h' := btInsert_fst_eq_btLookup t2 ch2 hs2
        rw [hbt] at h'
        simp only [Prod.fst] at h'
        rw [h']
        exact h2
      subst hold
      unfold DDSHistoryCache.add_change
      rw [hbt]

/-- Witness for C6: inserting at instant 5 into an empty history succeeds and
is retrievable; inserting again at instant 3 into a history already holding
instant 3 panics. -/
theorem c6_add_change_insert_or_panic_witness :
    (c6hcEmpty.changes.Pairwise (fun a b => a.1 < b.1) ∧
      c6hcEmpty.get_change 5 = none ∧
      c6hcDup.changes.Pairwise (fun a b => a.1 < b.1) ∧
      c6hcDup.get_change 3 = some (c5change 3)) ∧
      ((∃ hc', c6hcEmpty.add_change 5 (c5change 5) = some hc' ∧
          hc'.get_change 5 = some (c5change 5)) ∧
        c6hcDup.add_change 3 (c5change 9) = none) :=
  ⟨⟨by decide, by decide, by decide, by decide⟩,
    c6_add_change_insert_or_panic c6hcEmpty 5 (c5change 5) c6hcDup 3 (c5change 9)
      (c5change 3) (by decide) (by decide) (by decide) (by decide)⟩

/-- C7: every operation naming a topic that is not in the registry is safe:
`to_topic_add_change` is a silent no-op returning the unchanged cache (no
panic), the point lookup and the QoS lookup return `none`, and the range query
returns the empty sequence without panicking (even though the delegated range
call could panic on an existing topic). -/
theorem c7_unknown_topic_noop (c : DDSCache) (name : String) (instant : Instant)
    (ch : CacheChange) (s e : Instant)
    (h : hmGet c.topic_caches name = none) :
    c.to_topic_add_change name instant ch = some c ∧
      c.from_topic_get_change name instant = none ∧
      c.get_topic_qos name = none ∧
      c.from_topic_get_changes_in_range name s e = some [] := by
  refine ⟨?_, ?_, ?_, ?_⟩
  · simp [DDSCache.to_topic_add_change, h]
  · simp [DDSCache.from_topic_get_change, h]
  · simp [DDSCache.get_topic_qos, h]
  · simp [DDSCache.from_topic_get_changes_in_range, h]

/-- Witness for C7 on the empty cache and an inverted instant range. -/
theorem c7_unknown_topic_noop_witness :
    (hmGet DDSCache.new.topic_caches "missing" = none) ∧
      (DDSCache.new.to_topic_add_change "missing" 1 (c5change 1) = some DDSCache.new ∧
        DDSCache.new.from_topic_get_change "missing" 1 = none ∧
        DDSCache.new.get_topic_qos "missing" = none ∧
        DDSCache.new.from_topic_get_changes_in_range "missing" 9 2 = some []) :=
  ⟨by decide, c7_unknown_topic_noop DDSCache.new "missing" 1 (c5change 1) 9 2 (by decide)⟩

/-- C8: `add_new_topic` on a fresh name returns `true` and afterwards the name
maps to a fresh `TopicCache` with the default (`qos_none`) QoS and an empty
history; on an existing name it returns `false` and leaves the whole registry
(hence the existing `TopicCache`, its changes and its QoS) unchanged. -/
theorem c8_add_new_topic_fresh_or_reject
    (c1 : DDSCache) (n1 : String) (k1 : TopicKind) (ty1 : String)
    (c2 : DDSCache) (n2 : String) (k2 : TopicKind) (ty2 : String) (tc : TopicCache)
    (h1 : hmGet c1.topic_caches n1 = none)
    (h2 : hmGet c2.topic_caches n2 = some tc) :
    ((c1.add_new_topic n1 k1 ty1).1 = true ∧
      hmGet (c1.add_new_topic n1 k1 ty1).2.topic_caches n1 = some (TopicCache.new k1 ty1) ∧
      (TopicCache.new k1 ty1).topic_qos = QosPolicies.qos_none ∧
      (TopicCache.new k1 ty1).history_cache = DDSHistoryCache.new) ∧
      c2.add_new_topic n2 k2 ty2 = (false, c2) := by
  have hb1 : hmContains c1.topic_caches n1 = false := by
    rw [hmContains, h1]
    rfl
  have hb2 : hmContains c2.topic_caches n2 = true := by
    rw [hmContains, h2]
    rfl
  refine ⟨⟨?_, ?_, rfl, rfl⟩, ?_⟩
  · simp [DDSCache.add_new_topic, hb1]
  · simp [DDSCache.add_new_topic, hb1, hmGet_hmInsert_self]
  · simp [DDSCache.add_new_topic, hb2]

/-- Witness for C8: creating topic "u" in the empty cache, re-creating topic
"t" in `c5cache`. -/
theorem c8_add_new_topic_fresh_or_reject_witness :
    (hmGet DDSCache.new.topic_caches "u" = none ∧
      hmGet c5cache.topic_caches "t" = some c5topic) ∧
      (((DDSCache.new.add_new_topic "u" TopicKind.NO_KEY "U").1 = true ∧
        hmGet (DDSCache.new.add_new_topic "u" TopicKind.NO_KEY "U").2.topic_caches "u"
          = some (TopicCache.new TopicKind.NO_KEY "U") ∧
        (TopicCache.new TopicKind.NO_KEY "U").topic_qos = QosPolicies.qos_none ∧
        (TopicCache.new TopicKind.NO_KEY "U").history_cache = DDSHistoryCache.new) ∧
        c5cache.add_new_topic "t" TopicKind.WITH_KEY "T2" = (false, c5cache)) :=
  ⟨⟨by decide, by decide⟩,
    c8_add_new_topic_fresh_or_reject DDSCache.new "u" TopicKind.NO_KEY "U"
      c5cache "t" TopicKind.WITH_KEY "T2" c5topic (by decide) (by decide)⟩

/-- C9 counterexample: for the existing topic "t9" of `c9cache`, whose
history is EMPTY, the range query with inverted bounds `5 > 3` returns the
empty sequence (`some []`) and does not panic: `BTreeMap::range` on an empty
map never reaches the inverted-bounds check, so the claim that an existing
topic with inverted bounds always panics is false at this input. -/
theorem c9_inverted_range_counterexample :
    c9cache.from_topic_get_changes_in_range "t9" 5 3 = some [] ∧
      c9cache.from_topic_get_changes_in_range "t9" 5 3 ≠ none ∧
      hmGet c9cache.topic_caches "t9" = some (TopicCache.new TopicKind.WITH_KEY "T9") := by
  decide

/-- C9 (amended): for an existing topic whose history is non-empty, the range
query is not total: inverted bounds (`start > end`) make the delegated
`BTreeMap::range` call panic (`none` in the panic monad) instead of returning
an empty sequence. -/
theorem c9_inverted_range_panics (c : DDSCache) (name : String) (tc : TopicCache)
    (s e : Instant) (h : hmGet c.topic_caches name = some tc)
    (hne : tc.history_cache.changes.isEmpty = false) (hlt : e < s) :
    c.from_topic_get_changes_in_range name s e = none := by
  simp only [DDSCache.from_topic_get_changes_in_range, h,
    TopicCache.get_changes_in_range, DDSHistoryCache.get_range_of_changes_vec, btRange]
  rw [if_neg (by rw [hne]; simp), if_pos hlt]

/-- Witness for the amended C9 on `c9cacheNE` (topic "t9n" with one stored
entry) and bounds `5 > 3`. -/
theorem c9_inverted_range_panics_witness :
    (hmGet c9cacheNE.topic_caches "t9n" = some c9topicNE ∧
      c9topicNE.history_cache.changes.isEmpty = false ∧
      (3 : Instant) < 5) ∧
      c9cacheNE.from_topic_get_changes_in_range "t9n" 5 3 = none :=
  ⟨⟨by decide, by decide, by decide⟩,
    c9_inverted_range_panics c9cacheNE "t9n" c9topicNE 5 3
      (by decide) (by decide) (by decide)⟩

/-- C10: the buffer for a writer sequence number is sized by the first
DataFrag seen: a buffer freshly built from `data_size` has exactly
`data_size` bytes and the RTPS fragment count; a successful `insert_frags`
never changes the byte length or the fragment count; and when a buffer for
`writer_sn` already exists, `new_datafrag` gives the very same result for a
later DataFrag with ANY other `data_size` — the field is never re-validated
against the original buffer. -/
theorem c10_buffer_sized_by_first_datafrag
    (d f : Nat) (nw : Timestamp) (b : AssemblyBuffer)
    (ab : AssemblyBuffer) (df : DataFrag) (fs : Nat) (nw2 : Timestamp)
    (ab2 : AssemblyBuffer)
    (fa : FragmentAssembler) (df3 : DataFrag) (flags : List DATAFRAG_Flags)
    (nw3 : Timestamp) (b3 : AssemblyBuffer) (d2 : Nat)
    (h1 : AssemblyBuffer.new d f nw = some b)
    (h2 : AssemblyBuffer.insert_frags ab df fs nw2 = some ab2)
    (h3 : btLookup fa.assembly_buffers df3.writer_sn = some b3) :
    (b.buffer_bytes.length = d ∧
      b.fragment_count = d / f + (if d % f = 0 then 0 else 1)) ∧
      (ab2.buffer_bytes.length = ab.buffer_bytes.length ∧
        ab2.fragment_count = ab.fragment_count) ∧
      fa.new_datafrag df3 flags nw3 =
        fa.new_datafrag { df3 with data_size := d2 } flags nw3 := by
  refine ⟨⟨(assembly_buffer_new_spec h1).1, (assembly_buffer_new_spec h1).2.1⟩,
    ⟨(insert_frags_preserves h2).1, (insert_frags_preserves h2).2.1⟩, ?_⟩
  cases df3 with
  | mk sn fsn nfr fsz ds sp =>
    unfold FragmentAssembler.new_datafrag
    rw [h3]
    rfl

/-- Witness for C10: `c10buf` built by `new 10 4`, the successful insertion of
fragment 2 (`c10df`) into it, and the assembler `c10fa` already holding it,
fed a DataFrag whose `data_size` is replaced by 999. -/
theorem c10_buffer_sized_by_first_datafrag_witness :
    (AssemblyBuffer.new 10 4 0 = some c10buf ∧
      AssemblyBuffer.insert_frags c10buf c10df 4 0 = some c10buf2 ∧
      btLookup c10fa.assembly_buffers c10df.writer_sn = some c10buf) ∧
      ((c10buf.buffer_bytes.length = 10 ∧
        c10buf.fragment_count = 10 / 4 + (if 10 % 4 = 0 then 0 else 1)) ∧
        (c10buf2.buffer_bytes.length = c10buf.buffer_bytes.length ∧
          c10buf2.fragment_count = c10buf.fragment_count) ∧
        c10fa.new_datafrag c10df [] 0 =
          c10fa.new_datafrag { c10df with data_size := 999 } [] 0) :=
  ⟨⟨by decide, by decide, by decide⟩,
    c10_buffer_sized_by_first_datafrag 10 4 0 c10buf c10buf c10df 4 0 c10buf2
      c10fa c10df [] 0 c10buf 999 (by decide) (by decide) (by decide)⟩
